import Mathlib

/-
Verification development for the docx-to-questions conversion engine
(src/src/app/api/docx-to-questions/route.ts).

The engine takes an ordered list of lines, each a pair of an HTML fragment
and its detagged text, segments them into numbered question blocks,
audits the numbering, classifies each block into stem / choices / answer,
and emits one structured question per block together with a list of
diagnostic entries and aggregate statistics.

The embedding below translates the TypeScript source function by function.
Strings are Lean strings (lists of characters); the JavaScript regular
expressions are translated into explicit character scanners that reproduce
the anchored patterns of the source, including greedy matching and ordered
alternation. The cheerio-based HTML helpers are modelled as simple tag
scanners over well-formed fragments: a tag starts at a left angle bracket
followed by an ASCII letter, a slash or a bang and runs to the next right
angle bracket; HTML entities are outside the model, as no claim depends
on them.
-/

namespace DocxQ

/-- JS whitespace class `\s` restricted to ASCII: space, tab, newline,
carriage return, vertical tab, form feed. -/
def isWs (c : Char) : Bool :=
  c = ' ' || c = '\t' || c = '\n' || c = '\r' || c = '\x0b' || c = '\x0c'

/-- JS `String.prototype.trim`: drop whitespace from both ends. -/
def jsTrim (s : String) : String :=
  ⟨((s.data.dropWhile isWs).reverse.dropWhile isWs).reverse⟩

/-- Decimal value of a digit run, as `parseInt(_, 10)` computes it. -/
def digitsToNat (ds : List Char) : Nat :=
  ds.foldl (fun a c => 10 * a + (c.toNat - '0'.toNat)) 0

/-- Case-insensitively strip a literal pattern from the front of a string,
returning the remainder on success. Models one ordered-alternation branch
of a `/i` regex. -/
def ciStrip : List Char → List Char → Option (List Char)
  | [], cs => some cs
  | _ :: _, [] => none
  | p :: ps, c :: cs => if p.toLower = c.toLower then ciStrip ps cs else none

/-- Length of the leading match of `\s*HEAD\s*[.)]\s+` where `headLen`
recognises the HEAD part (digits or a choice letter). Returns `none` when
the anchored pattern does not match. The trailing `\s+` is greedy, as in
the source regexes `Q_START` and the choice-marker pattern used by
`stripPrefix`. -/
def markLen (headLen : List Char → Option Nat) (cs : List Char) : Option Nat :=
  let w1 := cs.takeWhile isWs
  let r1 := cs.dropWhile isWs
  match headLen r1 with
  | none => none
  | some h =>
    let r2 := r1.drop h
    let w2 := r2.takeWhile isWs
    let r3 := r2.dropWhile isWs
    match r3 with
    | [] => none
    | sep :: r4 =>
      if sep = '.' || sep = ')' then
        let w3 := r4.takeWhile isWs
        if w3.length = 0 then none
        else some (w1.length + h + w2.length + 1 + w3.length)
      else none

/-- HEAD recogniser for `\d{1,3}`: with the separator required next, the
regex can only succeed on the full leading digit run, and only when that
run has between one and three digits. -/
def digitsHead (cs : List Char) : Option Nat :=
  let ds := cs.takeWhile Char.isDigit
  if 1 ≤ ds.length ∧ ds.length ≤ 3 then some ds.length else none

/-- HEAD recogniser for `[A-H]` (uppercase only, as in the source). -/
def letterHead (cs : List Char) : Option Nat :=
  match cs with
  | [] => none
  | c :: _ => if 'A' ≤ c ∧ c ≤ 'H' then some 1 else none

/-- `Q_START = /^\s*(\d{1,3})\s*[.)]\s+/` applied to a line text: returns
the captured number on success. -/
def qStartMatch (cs : List Char) : Option Nat :=
  match markLen digitsHead cs with
  | none => none
  | some _ => some (digitsToNat ((cs.dropWhile isWs).takeWhile Char.isDigit))

/-- `CHOICE = /^\s*([A-H])\s*[.)]\s+(.*)$/` applied to a trimmed line text:
returns the captured key letter and the captured remainder. The `(.*)$`
part forbids a newline in the remainder (JS dot does not match newline and
the regex has no multiline flag). -/
def choiceMatch (cs : List Char) : Option (Char × List Char) :=
  match markLen letterHead cs with
  | none => none
  | some len =>
    let body := cs.drop len
    if body.contains '\n' then none
    else
      match (cs.dropWhile isWs) with
      | [] => none
      | c :: _ => some (c, body)

/-- The `\s*(.+)\s*$` tail of the answer regex, applied to the text after
the `[:\-]` separator. Reproduces greedy matching with backtracking:
one-or-more non-newline characters captured, then only whitespace to the
end of the string. -/
def dotPlusWs (x : List Char) : Option (List Char) :=
  let y := x.dropWhile isWs
  if y.isEmpty then
    match x.reverse.dropWhile (fun c => c = '\n') with
    | [] => none
    | c :: _ => some [c]
  else
    let a := y.takeWhile (fun c => c ≠ '\n')
    if (y.drop a.length).all isWs then some a else none

/-- One branch of the answer marker alternation: strip the marker
case-insensitively, then `\s*[:\-]`, then the captured remainder. -/
def ansAfterMarker (rest : List Char) : Option (List Char) :=
  let r := rest.dropWhile isWs
  match r with
  | [] => none
  | sep :: r2 => if sep = ':' || sep = '-' then dotPlusWs r2 else none

/-- `ANSWER = /^\s*(?:Answer|Ans|Correct Answer)\s*[:\-]\s*(.+)\s*$/i`
applied to a trimmed line text: returns the captured remainder. The
alternation is ordered with backtracking, as in JS. -/
def answerMatch (cs : List Char) : Option (List Char) :=
  let r1 := cs.dropWhile isWs
  match ciStrip "Answer".data r1 with
  | some r2 =>
    match ansAfterMarker r2 with
    | some a => some a
    | none =>
      match ciStrip "Ans".data r1 with
      | some r3 =>
        match ansAfterMarker r3 with
        | some a => some a
        | none =>
          match ciStrip "Correct Answer".data r1 with
          | some r4 => ansAfterMarker r4
          | none => none
      | none => none
  | none =>
    match ciStrip "Ans".data r1 with
    | some r3 =>
      match ansAfterMarker r3 with
      | some a => some a
      | none =>
        match ciStrip "Correct Answer".data r1 with
        | some r4 => ansAfterMarker r4
        | none => none
    | none =>
      match ciStrip "Correct Answer".data r1 with
      | some r4 => ansAfterMarker r4
      | none => none

/-- JS word character class `\w = [A-Za-z0-9_]`. -/
def isWordChar (c : Char) : Bool :=
  ('A' ≤ c ∧ c ≤ 'Z') || ('a' ≤ c ∧ c ≤ 'z') || ('0' ≤ c ∧ c ≤ '9') || c = '_'

theorem dropWhile_length_le (p : Char → Bool) (l : List Char) :
    (l.dropWhile p).length ≤ l.length := by
  induction l with
  | nil => simp [List.dropWhile]
  | cons c rest ih =>
    simp only [List.dropWhile]
    split
    · exact Nat.le_succ_of_le ih
    · simp

/-- One-character-at-a-time scanner behind `collapseRuns`: `inRun` is
true while inside a run of characters satisfying `p`, which has already
emitted its single replacement character. -/
def collapseRunsAux (p : Char → Bool) (rep : Char) : Bool → List Char → List Char
  | _, [] => []
  | inRun, c :: rest =>
    if p c then
      (if inRun then [] else [rep]) ++ collapseRunsAux p rep true rest
    else c :: collapseRunsAux p rep false rest

/-- Collapse every maximal run of characters satisfying `p` to a single
`rep` character, as `replace(/P+/g, rep)` does. -/
def collapseRuns (p : Char → Bool) (rep : Char) (cs : List Char) : List Char :=
  collapseRunsAux p rep false cs

/-- `normalizeAnswer` from the source: trim; if the result starts with a
letter A-H (case-insensitive) at a word boundary, return that letter
uppercased; otherwise return the whitespace-collapsed remainder. -/
def normalizeAnswer (raw : String) : String :=
  let s := jsTrim raw
  match s.data with
  | [] => ⟨collapseRuns isWs ' ' s.data⟩
  | c :: rest =>
    let bnd : Bool := match rest with | [] => true | d :: _ => ! isWordChar d
    if ((('A' ≤ c ∧ c ≤ 'H') || ('a' ≤ c ∧ c ≤ 'h')) && bnd : Bool) then
      String.singleton c.toUpper
    else ⟨collapseRuns isWs ' ' s.data⟩

/-- A left angle bracket starts a tag when followed by an ASCII letter, a
slash or a bang, as in the htmlparser2 tokenizer used by cheerio. -/
def tagStarts (cs : List Char) : Bool :=
  match cs with
  | [] => false
  | c :: _ => c.isAlpha || c = '/' || c = '!'

/-- Does the inside of a tag (the characters between the angle brackets)
denote a `br` element? The name is compared case-insensitively, with only
whitespace or a closing slash allowed after it. -/
def isBrTag (inner : List Char) : Bool :=
  let name := inner.takeWhile Char.isAlpha
  (name.map Char.toLower = ['b', 'r'])
    && (inner.drop name.length).all (fun c => isWs c || c = '/')

/-- Scanner behind `stripTags`: `acc = none` outside a tag; `acc = some
inner` inside a tag whose contents so far are `inner`, reversed. An
unterminated tag at the end of the fragment contributes nothing. -/
def stripTagsAux (brSpace : Bool) : List Char → Option (List Char) → List Char
  | [], _ => []
  | c :: rest, some acc =>
    if c = '>' then
      (if brSpace && isBrTag acc.reverse then [' '] else [])
        ++ stripTagsAux brSpace rest none
    else stripTagsAux brSpace rest (some (c :: acc))
  | c :: rest, none =>
    if c = '<' && tagStarts rest then stripTagsAux brSpace rest (some [])
    else c :: stripTagsAux brSpace rest none

/-- Strip markup tags from an HTML fragment, keeping text content. When
`brSpace` is true a `br` tag becomes a single space, modelling the
`$("br").replaceWith(" ")` step of `cleanChoiceHtml`; otherwise tags
contribute nothing, modelling the bare `.text()` call of `toPlainStem`.
The `strong` and `tr` unwrapping steps of `cleanChoiceHtml` keep the text
of the children, so they are invisible at the text level. -/
def stripTags (brSpace : Bool) (cs : List Char) : List Char :=
  stripTagsAux brSpace cs none

/-- `toPlainStem` from the source: cheerio text extraction, tabs collapsed
to a space, whitespace runs collapsed to a space, trimmed. -/
def toPlainStem (html : String) : String :=
  jsTrim ⟨collapseRuns isWs ' ' (collapseRuns (fun c => c = '\t') ' ' (stripTags false html.data))⟩

/-- `cleanChoiceHtml` from the source: unwrap `strong` and `tr`, turn `br`
into a space, extract text, collapse tabs and whitespace runs, trim. -/
def cleanChoiceHtml (html : String) : String :=
  jsTrim ⟨collapseRuns isWs ' ' (collapseRuns (fun c => c = '\t') ' ' (stripTags true html.data))⟩

/-- `stripPrefix(html, /^\s*\d{1,3}\s*[.)]\s+/)` from the source: remove a
leading numbering marker from the markup form of a line, if present. -/
def stripNumMark (html : String) : String :=
  match markLen digitsHead html.data with
  | some len => ⟨html.data.drop len⟩
  | none => html

/-- `stripPrefix(html, /^\s*[A-H]\s*[.)]\s+/)` from the source: remove a
leading choice marker from the markup form of a line, if present. -/
def stripChoiceMark (html : String) : String :=
  match markLen letterHead html.data with
  | some len => ⟨html.data.drop len⟩
  | none => html

/-- One extracted line: the inner HTML of a paragraph and its detagged
text with trailing whitespace removed. -/
structure Line where
  html : String
  text : String
deriving DecidableEq, Repr

/-- One question block: the number parsed from the opening marker (`none`
for the fallback block) and the block's lines. -/
structure Block where
  num : Option Nat
  lines : List Line
deriving DecidableEq, Repr

/-- One labeled choice. -/
structure Choice where
  key : String
  text : String
deriving DecidableEq, Repr

/-- One diagnostic entry, with the optional fields actually pushed by the
source (`sample`, `note`); `index` is pushed as `null` for the
`no-number` entry. -/
structure Unparsed where
  index : Option Nat
  reason : String
  sample : Option String := none
  note : Option String := none
deriving DecidableEq, Repr

/-- The synthesized media reference. -/
structure Media where
  mtype : String
  url : String
  alt : String
deriving DecidableEq, Repr

/-- The output question record. -/
structure Question where
  id : String
  index : Nat
  qtype : String
  category : String
  stem : String
  media : Media
  choices : List Choice
  answer : String
deriving DecidableEq, Repr

/-- The aggregated statistics. -/
structure Stats where
  totalBlocks : Nat
  parsed : Nat
  unparsed : Nat
deriving DecidableEq, Repr

/-- The diagnostics-bearing output shape. -/
structure Output where
  questions : List Question
  unparsed : List Unparsed
  stats : Stats
deriving DecidableEq, Repr

/-- The trailing-empty-line strip performed by `pushCur` before a block is
emitted. -/
def stripTrailingEmpty (ls : List Line) : List Line :=
  (ls.reverse.dropWhile (fun l => jsTrim l.text == "")).reverse

/-- `pushCur` from the source: strip trailing empty lines, then emit the
open block unless it became empty. -/
def pushCur (blocks : List Block) (cur : Option Block) : List Block :=
  match cur with
  | none => blocks
  | some b =>
    let ls := stripTrailingEmpty b.lines
    if ls.isEmpty then blocks else blocks ++ [{ num := b.num, lines := ls }]

/-- The segmentation loop over the line list: a line matching `Q_START`
closes the open block and opens a new one seeded with that line; other
lines are appended to the open block or discarded when none is open. -/
def segLoop : List Line → List Block → Option Block → List Block
  | [], blocks, cur => pushCur blocks cur
  | ln :: rest, blocks, cur =>
    match qStartMatch ln.text.data with
    | some n => segLoop rest (pushCur blocks cur) (some { num := some n, lines := [ln] })
    | none =>
      match cur with
      | some b => segLoop rest blocks (some { num := b.num, lines := b.lines ++ [ln] })
      | none => segLoop rest blocks none

/-- The block list produced by the segmentation loop alone. -/
def segBlocks (lines : List Line) : List Block := segLoop lines [] none

/-- The fallback wrap: when no block was emitted but lines exist, the
whole line sequence becomes a single unnumbered block. The source runs
this check twice, before and after the numbering audit. -/
def withFallback (lines : List Line) (bs : List Block) : List Block :=
  if bs.isEmpty && !lines.isEmpty then [{ num := none, lines := lines }] else bs

/-- One iteration of the numbering-audit loop: a finite declared number
goes into the present set, or into the duplicate set when already
present. The two `Set`s of the source are modelled as insertion-ordered
duplicate-free lists. -/
def pdStep (pd : List Nat × List Nat) (b : Block) : List Nat × List Nat :=
  match b.num with
  | some n =>
    if pd.1.contains n then
      (pd.1, if pd.2.contains n then pd.2 else pd.2 ++ [n])
    else (pd.1 ++ [n], pd.2)
  | none => pd

/-- The present / duplicate number accumulation of the numbering audit. -/
def presentDups (bs : List Block) : List Nat × List Nat :=
  bs.foldl pdStep ([], [])

/-- The `missing-number` entries: when the present set is non-empty, one
entry per integer of `[min, max]` absent from it, in increasing order. -/
def missingEntries (present : List Nat) : List Unparsed :=
  if present.isEmpty then []
  else
    let sorted := present.insertionSort (· ≤ ·)
    let lo := sorted.headD 0
    let hi := sorted.getLastD 0
    ((List.range' lo (hi + 1 - lo)).filter (fun i => ! present.contains i)).map
      (fun i => { index := some i, reason := "missing-number" })

/-- All entries pushed by the numbering audit, duplicates first (in `Set`
insertion order), then the missing numbers. -/
def auditEntries (bs : List Block) : List Unparsed :=
  let pd := presentDups bs
  pd.2.map (fun n => { index := some n, reason := "duplicate-number" }) ++ missingEntries pd.1

/-- The per-block classifier state: accumulated stem fragments, the
choice list, whether a choice is currently receiving continuation text
(the source mutates the last pushed choice through `currentChoice`), and
the extracted answer. -/
structure ClassState where
  stemParts : List String
  choices : List Choice
  active : Bool
  answer : Option String
deriving DecidableEq, Repr

/-- Append continuation text to the last choice, as the mutation of
`currentChoice.text` does on the choice already pushed into the list. -/
def updateLast (html : String) : List Choice → List Choice
  | [] => []
  | [c] => [{ c with text := jsTrim (c.text ++ " " ++ html) }]
  | c :: c2 :: rest => c :: updateLast html (c2 :: rest)

/-- The per-line dispatch of the block classifier, in source order:
choice line, answer line, first line of the block, continuation. -/
def classifyLine (j : Nat) (ln : Line) (st : ClassState) : ClassState :=
  let t := jsTrim ln.text
  match choiceMatch t.data with
  | some kb =>
    { st with
      choices := st.choices ++
        [{ key := String.singleton kb.1.toUpper, text := cleanChoiceHtml (stripChoiceMark ln.html) }],
      active := true }
  | none =>
    match answerMatch t.data with
    | some raw => { st with answer := some (normalizeAnswer ⟨raw⟩), active := false }
    | none =>
      if j = 0 then
        { st with stemParts := st.stemParts ++ [stripNumMark ln.html], active := false }
      else if st.active then
        { st with choices := updateLast ln.html st.choices }
      else
        { st with stemParts := st.stemParts ++ [ln.html] }

/-- Run the classifier over a block's lines. -/
def classifyBlock (b : Block) : ClassState :=
  b.lines.enum.foldl (fun st p => classifyLine p.1 p.2 st)
    { stemParts := [], choices := [], active := false, answer := none }

/-- The literal `<br/>` joiner used between stem fragments. -/
def brTok : List Char := ['<', 'b', 'r', '/', '>']

/-- Greedily count repetitions of `<br/>` followed by optional whitespace,
returning the count and the remainder, as one match attempt of the
`/(?:<br\/>\s*){3,}/g` collapse regex. Recursion is on a fuel argument so
the definition computes by iota reduction; every repetition consumes at
least five characters, so fuel equal to the length of the text is always
sufficient and the zero-fuel arm is unreachable from `countBrWs`. -/
def countBrWsF : Nat → List Char → Nat × List Char
  | 0, cs => (0, cs)
  | fuel + 1, cs =>
    if cs.take 5 = brTok then
      let p := countBrWsF fuel ((cs.drop 5).dropWhile isWs)
      (p.1 + 1, p.2)
    else (0, cs)

def countBrWs (cs : List Char) : Nat × List Char :=
  countBrWsF cs.length cs

/-- The `/(?:<br\/>\s*){3,}/g` global replace of the stem join: at each
position, a greedy run of at least three `<br/>`-plus-whitespace units is
replaced by exactly two `<br/>`; otherwise scanning advances one
character. Fueled like `countBrWsF`; each step consumes at least one
character, so fuel equal to the length of the text is sufficient. -/
def collapseBrRunsF : Nat → List Char → List Char
  | 0, cs => cs
  | _ + 1, [] => []
  | fuel + 1, c :: rest =>
    let p := countBrWs (c :: rest)
    if 3 ≤ p.1 then brTok ++ brTok ++ collapseBrRunsF fuel p.2
    else c :: collapseBrRunsF fuel rest

def collapseBrRuns (cs : List Char) : List Char :=
  collapseBrRunsF cs.length cs

/-- The stem post-pass: join fragments with `<br/>`, collapse long break
runs, trim. -/
def stemHtmlOf (st : ClassState) : String :=
  jsTrim ⟨collapseBrRuns (String.intercalate "<br/>" st.stemParts).data⟩

/-- The emitted index: the declared number when finite, else the 1-based
position of the block. -/
def qIndex (b : Block) (i : Nat) : Nat :=
  match b.num with
  | some n => n
  | none => i + 1

/-- The question record assembled for block `b` at position `i`. -/
def buildQuestion (b : Block) (i : Nat) : Question :=
  let st := classifyBlock b
  let choices := st.choices
  let index := qIndex b i
  { id := "Q" ++ toString index
    index := index
    qtype := if 2 ≤ choices.length then "MULTIPLE_CHOICE" else "FREE_RESPONSE"
    category := "Uncategorized"
    stem := toPlainStem (stemHtmlOf st)
    media := { mtype := "image", url := "/images/2018/B/q" ++ toString index ++ ".png", alt := "" }
    choices := if choices.isEmpty then [] else choices
    answer := "" }

/-- `plainStem.replace(/\s+/g, "")`: remove all whitespace characters. -/
def removeWs (s : String) : String := ⟨s.data.filter (fun c => ! isWs c)⟩

/-- The diagnostic entries pushed while building block `b` at position
`i`, in source order: `no-number`, `empty-stem`, `incomplete-choices`,
`too-many-choices`. -/
def blockDiags (b : Block) (i : Nat) : List Unparsed :=
  let st := classifyBlock b
  let choices := st.choices
  let index := qIndex b i
  let plainStem := toPlainStem (stemHtmlOf st)
  (if b.num.isNone then
    [{ index := none, reason := "no-number",
       sample := some (((b.lines.head?.map Line.text).getD "").take 120) }]
   else [])
  ++ (if plainStem = "" ∨ (removeWs plainStem).length < 3 then
    [{ index := some index, reason := "empty-stem",
       sample := some ((String.intercalate " " (b.lines.map Line.text)).take 140) }]
   else [])
  ++ (if choices.length = 1 then
    [{ index := some index, reason := "incomplete-choices",
       note := some "found 1 choice",
       sample := some ((choices.headD { key := "", text := "" }).text.take 100) }]
   else [])
  ++ (if 8 < choices.length then
    [{ index := some index, reason := "too-many-choices",
       note := some (toString choices.length) }]
   else [])

/-- The full conversion, starting from the contents `init` that the
module-level `unparsed` array holds when the call begins. The source
declares `const unparsed: Unparsed[] = []` at module scope and only ever
pushes to it, so a fresh module corresponds to `init = []` and every
later call starts from the entries accumulated by earlier calls. The
per-block `forEach` pushes each block's diagnostics and then its
question, so the final arrays are the audit entries followed by the
per-block entries in block order, and the questions in block order. -/
def convertFrom (init : List Unparsed) (lines : List Line) : Output :=
  let bs1 := withFallback lines (segBlocks lines)
  let u1 := init ++ auditEntries bs1
  let bs2 := withFallback lines bs1
  let qs := bs2.enum.map (fun p => buildQuestion p.2 p.1)
  let u2 := u1 ++ (bs2.enum.map (fun p => blockDiags p.2 p.1)).join
  { questions := qs
    unparsed := u2
    stats := { totalBlocks := bs2.length, parsed := qs.length, unparsed := u2.length } }

/-- One conversion call on a fresh module. -/
def convert : List Line → Output := convertFrom []

/-- The block list the per-block loop finally runs over. -/
def finalBlocks (lines : List Line) : List Block :=
  withFallback lines (withFallback lines (segBlocks lines))

/-! Structural lemmas about the pipeline. -/

theorem convert_questions_eq (init : List Unparsed) (lines : List Line) :
    (convertFrom init lines).questions
      = (finalBlocks lines).enum.map (fun p => buildQuestion p.2 p.1) := rfl

theorem convert_unparsed_eq (init : List Unparsed) (lines : List Line) :
    (convertFrom init lines).unparsed
      = init ++ auditEntries (withFallback lines (segBlocks lines))
          ++ ((finalBlocks lines).enum.map (fun p => blockDiags p.2 p.1)).join := by
  simp [convertFrom, finalBlocks, List.append_assoc]

theorem convert_questions_length (init : List Unparsed) (lines : List Line) :
    (convertFrom init lines).questions.length = (finalBlocks lines).length := by
  simp [convert_questions_eq, List.enum_length]

theorem convert_stats_eq (init : List Unparsed) (lines : List Line) :
    (convertFrom init lines).stats
      = { totalBlocks := (finalBlocks lines).length
          parsed := (convertFrom init lines).questions.length
          unparsed := (convertFrom init lines).unparsed.length } := rfl

theorem withFallback_ne_nil (lines : List Line) (bs : List Block) (h : lines ≠ []) :
    withFallback lines bs ≠ [] := by
  unfold withFallback
  cases bs with
  | nil => simp [h]
  | cons b bs => simp

/-- If the first line of a block matches neither the choice pattern nor
the answer pattern, classifying it from any state only touches the stem
and the active flag. -/
theorem classifyLine_stem_extends (j : Nat) (ln : Line) (st : ClassState) :
    ∃ t, (classifyLine j ln st).stemParts = st.stemParts ++ t := by
  unfold classifyLine
  cases hc : choiceMatch (jsTrim ln.text).data with
  | some kb => exact ⟨[], by simp [hc]⟩
  | none =>
    cases ha : answerMatch (jsTrim ln.text).data with
    | some raw => exact ⟨[], by simp [hc, ha]⟩
    | none =>
      by_cases hj : j = 0
      · exact ⟨[stripNumMark ln.html], by simp [hc, ha, hj]⟩
      · by_cases hact : st.active = true
        · exact ⟨[], by simp [hc, ha, hj, hact]⟩
        · exact ⟨[ln.html], by simp [hc, ha, hj, hact]⟩

theorem classifyFold_stem_extends (ls : List (Nat × Line)) (st : ClassState) :
    ∃ t, (ls.foldl (fun s p => classifyLine p.1 p.2 s) st).stemParts
      = st.stemParts ++ t := by
  induction ls generalizing st with
  | nil => exact ⟨[], by simp⟩
  | cons p rest ih =>
    obtain ⟨t2, h2⟩ := ih (classifyLine p.1 p.2 st)
    obtain ⟨t1, h1⟩ := classifyLine_stem_extends p.1 p.2 st
    exact ⟨t1 ++ t2, by simp only [List.foldl_cons, h2, h1, List.append_assoc]⟩

/-! Claim C1. The classifier tests the choice and answer patterns before
the first-line rule, so a first line matching one of them is handled by
that rule, not by the stem rule; the fallback block of a wholly
unnumbered document exhibits this. The amended statement: the first line
is placed into the stem, with its numbering marker stripped from the
markup form, exactly when it matches neither the choice pattern nor the
answer pattern. -/

/-- C1 counterexample: in the fallback block of the document
`["A. only", "B. two"]`, the first line matches the choice pattern and is
turned into choice A; the stem stays empty, so the first line is not
placed into the stem accumulator. -/
theorem C1_counterexample :
    (choiceMatch (jsTrim "A. only").data).isSome = true ∧
    finalBlocks [{ html := "A. only", text := "A. only" },
                 { html := "B. two", text := "B. two" }]
      = [{ num := none,
           lines := [{ html := "A. only", text := "A. only" },
                     { html := "B. two", text := "B. two" }] }] ∧
    (convert [{ html := "A. only", text := "A. only" },
              { html := "B. two", text := "B. two" }]).questions.map
        (fun q => (q.stem, q.choices))
      = [("", [{ key := "A", text := "only" }, { key := "B", text := "two" }])] :=
  ⟨by decide, by decide, by decide⟩

/-- C1 (amended): for every block whose first line matches neither the
choice pattern nor the answer pattern, that first line is placed at the
head of the stem accumulator with its leading numbering marker stripped
from its markup form. In particular this covers every block opened by a
numbering marker; only a fallback block can have a first line matching
the choice or answer pattern, and those lines go to the choice or answer
rule instead. -/
theorem C1_first_line_to_stem (b : Block) (l : Line) (rest : List Line)
    (hb : b.lines = l :: rest)
    (hc : choiceMatch (jsTrim l.text).data = none)
    (ha : answerMatch (jsTrim l.text).data = none) :
    (classifyBlock b).stemParts.head? = some (stripNumMark l.html) := by
  unfold classifyBlock
  rw [hb]
  have henum : (l :: rest).enum = (0, l) :: rest.enumFrom 1 := rfl
  rw [henum]
  simp only [List.foldl_cons]
  have h0 : classifyLine 0 l
      { stemParts := [], choices := [], active := false, answer := none }
      = { stemParts := [stripNumMark l.html], choices := [], active := false,
          answer := none } := by
    simp [classifyLine, hc, ha]
  rw [h0]
  obtain ⟨t, ht⟩ := classifyFold_stem_extends (rest.enumFrom 1)
    { stemParts := [stripNumMark l.html], choices := [], active := false,
      answer := none }
  rw [ht]
  rfl

/-- C1 witness: a block opened by a numbering marker, whose first line
matches neither pattern, has that line (marker stripped) at the head of
its stem parts. -/
theorem C1_witness :
    (classifyBlock
        { num := some 1,
          lines := [{ html := "1. What is 2+2?", text := "1. What is 2+2?" },
                    { html := "A. 3", text := "A. 3" }] }).stemParts.head?
      = some "What is 2+2?" := by
  have h := C1_first_line_to_stem
    { num := some 1,
      lines := [{ html := "1. What is 2+2?", text := "1. What is 2+2?" },
                { html := "A. 3", text := "A. 3" }] }
    { html := "1. What is 2+2?", text := "1. What is 2+2?" }
    [{ html := "A. 3", text := "A. 3" }] rfl (by decide) (by decide)
  rw [h]
  decide

/-! Claim C2. The `unparsed` accumulator is declared at module scope and
never cleared, so entries persist across conversion calls: a second call
on the same input starts from the first call's entries and reports them
again, with a larger `stats.unparsed` count. The run itself is a pure
function of the input and the accumulator's starting contents. -/

set_option maxRecDepth 4000 in
/-- C2: evaluating the engine at the failing input. The document
`["1. hi"]` produces one `empty-stem` diagnostic. A first call on a fresh
module reports one entry; a second call on the same input, starting from
the module state the first call left behind, reports two, so the two runs
are not byte-identical. -/
theorem C2_unparsed_accumulates_across_calls :
    (convertFrom [] [{ html := "1. hi", text := "1. hi" }]).stats.unparsed = 1 ∧
    (convertFrom (convertFrom [] [{ html := "1. hi", text := "1. hi" }]).unparsed
        [{ html := "1. hi", text := "1. hi" }]).stats.unparsed = 2 ∧
    convertFrom (convertFrom [] [{ html := "1. hi", text := "1. hi" }]).unparsed
        [{ html := "1. hi", text := "1. hi" }]
      ≠ convertFrom [] [{ html := "1. hi", text := "1. hi" }] :=
  ⟨by decide, by decide, by decide⟩

/-! Claim C3: the fallback-wrap invariant. -/

/-- C3: every non-empty line sequence yields at least one question; when
the segmenter emitted no block, the whole sequence is wrapped into a
single unnumbered block; and one question is emitted per final block. -/
theorem C3_fallback_wrap (lines : List Line) (hne : lines ≠ []) :
    (convert lines).questions ≠ [] ∧
    (segBlocks lines = [] →
      finalBlocks lines = [{ num := none, lines := lines }]) ∧
    (convert lines).questions.length = (finalBlocks lines).length := by
  refine ⟨?_, ?_, convert_questions_length [] lines⟩
  · intro h
    have h1 : (convertFrom [] lines).questions.length = 0 := by
      show (convert lines).questions.length = 0
      rw [h]
      rfl
    rw [convert_questions_length] at h1
    exact withFallback_ne_nil lines _ hne (List.length_eq_zero.mp h1)
  · intro h
    have h1 : withFallback lines (segBlocks lines)
        = [{ num := none, lines := lines }] := by
      rw [h]
      unfold withFallback
      simp [hne]
    unfold finalBlocks
    rw [h1]
    unfold withFallback
    simp

/-- C3 witness at the single unnumbered line `"x"`. -/
theorem C3_witness :
    (convert [{ html := "x", text := "x" }]).questions ≠ [] ∧
    segBlocks [{ html := "x", text := "x" }] = [] ∧
    finalBlocks [{ html := "x", text := "x" }]
      = [{ num := none, lines := [{ html := "x", text := "x" }] }] := by
  have h := C3_fallback_wrap [{ html := "x", text := "x" }] (by decide)
  exact ⟨h.1, by decide, h.2.1 (by decide)⟩

/-! Claim C4: exactly one question per block, in block order, and
`parsed = totalBlocks` in the stats. -/

/-- C4: the question list is exactly the block list mapped through the
question builder, position by position (1:1 and order-preserving, no
block dropped), and the aggregated stats satisfy
`parsed = totalBlocks`. -/
theorem C4_one_question_per_block (init : List Unparsed) (lines : List Line) :
    (convertFrom init lines).questions
      = (finalBlocks lines).enum.map (fun p => buildQuestion p.2 p.1) ∧
    (convertFrom init lines).stats.parsed
      = (convertFrom init lines).stats.totalBlocks := by
  refine ⟨rfl, ?_⟩
  show (convertFrom init lines).questions.length = (finalBlocks lines).length
  exact convert_questions_length init lines

/-! Claim C5: the emitted answer field is always the empty string. -/

/-- C5: every emitted question has `answer = ""`, whatever the classifier
extracted. -/
theorem C5_answer_discarded (init : List Unparsed) (lines : List Line)
    (q : Question) (h : q ∈ (convertFrom init lines).questions) :
    q.answer = "" := by
  rw [convert_questions_eq] at h
  obtain ⟨p, hp, rfl⟩ := List.mem_map.mp h
  rfl

/-- C5 witness: the question built from `["1. hi", "Answer: B"]`, where
the classifier does extract an answer, still carries an empty answer
field. -/
theorem C5_witness :
    (buildQuestion
        { num := some 1,
          lines := [{ html := "1. hi", text := "1. hi" },
                    { html := "Answer: B", text := "Answer: B" }] } 0).answer = "" :=
  C5_answer_discarded []
    [{ html := "1. hi", text := "1. hi" },
     { html := "Answer: B", text := "Answer: B" }] _ (by decide)

/-! Claim C10: the question id is `"Q"` followed by the decimal index, so
duplicate declared numbers give duplicate ids. -/

/-- C10: every emitted question has `id = "Q" ++ toString index`, and the
two-block document both declaring number 5 yields two questions with the
identical id string `"Q5"`. -/
theorem C10_id_from_index (init : List Unparsed) (lines : List Line)
    (q : Question) (h : q ∈ (convertFrom init lines).questions) :
    q.id = "Q" ++ toString q.index ∧
    (convert [{ html := "5. one?", text := "5. one?" },
              { html := "x", text := "x" },
              { html := "5. two?", text := "5. two?" }]).questions.map Question.id
      = ["Q5", "Q5"] := by
  refine ⟨?_, by decide⟩
  rw [convert_questions_eq] at h
  obtain ⟨p, hp, rfl⟩ := List.mem_map.mp h
  rfl

/-- C10 witness at the first question of the duplicate-number document. -/
theorem C10_witness :
    (buildQuestion
        { num := some 5,
          lines := [{ html := "5. one?", text := "5. one?" },
                    { html := "x", text := "x" }] } 0).id
      = "Q" ++ toString (buildQuestion
        { num := some 5,
          lines := [{ html := "5. one?", text := "5. one?" },
                    { html := "x", text := "x" }] } 0).index :=
  (C10_id_from_index []
    [{ html := "5. one?", text := "5. one?" },
     { html := "x", text := "x" },
     { html := "5. two?", text := "5. two?" }] _ (by decide)).1

/-! Claim C8: the type tag is decided by the choice count, and a single
choice additionally raises an `incomplete-choices` diagnostic. -/

theorem buildQuestion_choices_length (b : Block) (i : Nat) :
    (buildQuestion b i).choices.length = (classifyBlock b).choices.length := by
  by_cases hc : (classifyBlock b).choices = []
  · simp [buildQuestion, hc]
  · simp [buildQuestion, hc]

theorem buildQuestion_index (b : Block) (i : Nat) :
    (buildQuestion b i).index = qIndex b i := rfl

/-- C8: for every emitted question, the type is `MULTIPLE_CHOICE` exactly
when the classifier found at least two choices; and when it found exactly
one, an `incomplete-choices` diagnostic carrying the question's index is
present in the unparsed list. -/
theorem C8_type_from_choice_count (init : List Unparsed) (lines : List Line)
    (q : Question) (h : q ∈ (convertFrom init lines).questions) :
    (q.qtype = "MULTIPLE_CHOICE" ↔ 2 ≤ q.choices.length) ∧
    (q.choices.length = 1 →
      ∃ u ∈ (convertFrom init lines).unparsed,
        u.reason = "incomplete-choices" ∧ u.index = some q.index) := by
  rw [convert_questions_eq] at h
  obtain ⟨p, hp, rfl⟩ := List.mem_map.mp h
  constructor
  · rw [buildQuestion_choices_length]
    by_cases h2 : 2 ≤ (classifyBlock p.2).choices.length
    · constructor
      · intro _
        exact h2
      · intro _
        simp [buildQuestion, h2]
    · constructor
      · intro hq
        have : (buildQuestion p.2 p.1).qtype = "FREE_RESPONSE" := by
          simp [buildQuestion, h2]
        rw [hq] at this
        exact absurd this (by decide)
      · intro hc
        exact absurd hc h2
  · intro hlen
    rw [buildQuestion_choices_length] at hlen
    refine ⟨{ index := some (qIndex p.2 p.1), reason := "incomplete-choices",
              note := some "found 1 choice",
              sample := some (((classifyBlock p.2).choices.headD
                { key := "", text := "" }).text.take 100) }, ?_, rfl, rfl⟩
    rw [convert_unparsed_eq]
    refine List.mem_append.mpr (Or.inr (List.mem_join.mpr ?_))
    refine ⟨blockDiags p.2 p.1, List.mem_map.mpr ⟨p, hp, rfl⟩, ?_⟩
    simp [blockDiags, hlen]

/-- C8 witness: the block `["1. hmm ok", "A. only one"]` has exactly one
choice, resolves to `FREE_RESPONSE`, and raises `incomplete-choices`. -/
theorem C8_witness :
    ((buildQuestion
        { num := some 1,
          lines := [{ html := "1. hmm ok", text := "1. hmm ok" },
                    { html := "A. only one", text := "A. only one" }] } 0).qtype
        = "MULTIPLE_CHOICE"
      ↔ 2 ≤ (buildQuestion
        { num := some 1,
          lines := [{ html := "1. hmm ok", text := "1. hmm ok" },
                    { html := "A. only one", text := "A. only one" }] } 0).choices.length) ∧
    (∃ u ∈ (convert [{ html := "1. hmm ok", text := "1. hmm ok" },
                     { html := "A. only one", text := "A. only one" }]).unparsed,
      u.reason = "incomplete-choices" ∧
      u.index = some (buildQuestion
        { num := some 1,
          lines := [{ html := "1. hmm ok", text := "1. hmm ok" },
                    { html := "A. only one", text := "A. only one" }] } 0).index) := by
  have h := C8_type_from_choice_count []
    [{ html := "1. hmm ok", text := "1. hmm ok" },
     { html := "A. only one", text := "A. only one" }]
    (buildQuestion
      { num := some 1,
        lines := [{ html := "1. hmm ok", text := "1. hmm ok" },
                  { html := "A. only one", text := "A. only one" }] } 0)
    (by decide)
  exact ⟨h.1, h.2 (by decide)⟩

/-! Numbering-audit lemmas for claims C6 and C7. -/

/-- Number of blocks declaring the number `n`. -/
def countNum (n : Nat) (bs : List Block) : Nat :=
  bs.countP (fun b => b.num = some n)

theorem countNum_cons (n : Nat) (b : Block) (bs : List Block) :
    countNum n (b :: bs) = countNum n bs + (if b.num = some n then 1 else 0) := by
  simp [countNum, List.countP_cons]

theorem withFallback_idem (lines : List Line) (bs : List Block) :
    withFallback lines (withFallback lines bs) = withFallback lines bs := by
  cases bs <;> cases lines <;> simp [withFallback]

theorem pdStep_skip {p d : List Nat} {b : Block} (h : b.num = none) :
    pdStep (p, d) b = (p, d) := by
  simp [pdStep, h]

theorem pdStep_old {p d : List Nat} {b : Block} {m : Nat} (h : b.num = some m)
    (hm : m ∈ p) :
    pdStep (p, d) b = (p, if m ∈ d then d else d ++ [m]) := by
  simp [pdStep, h, hm]

theorem pdStep_new {p d : List Nat} {b : Block} {m : Nat} (h : b.num = some m)
    (hm : m ∉ p) :
    pdStep (p, d) b = (p ++ [m], d) := by
  simp [pdStep, h, hm]

theorem pd_present_mem (bs : List Block) (p d : List Nat) (n : Nat) :
    n ∈ (bs.foldl pdStep (p, d)).1 ↔ n ∈ p ∨ 1 ≤ countNum n bs := by
  induction bs generalizing p d with
  | nil => simp [countNum]
  | cons b bs ih =>
    simp only [List.foldl_cons]
    cases hnum : b.num with
    | none =>
      rw [pdStep_skip hnum, ih p d, countNum_cons]
      simp [hnum]
    | some m =>
      by_cases hmp : m ∈ p
      · rw [pdStep_old hnum hmp, ih p _, countNum_cons]
        by_cases hmn : m = n
        · subst hmn
          simp [hnum, hmp]
        · simp [hnum, hmn]
      · rw [pdStep_new hnum hmp, ih _ d, countNum_cons]
        by_cases hmn : m = n
        · subst hmn
          simp [hnum, List.mem_append]
        · have hnm : ¬ (n = m) := fun hx => hmn hx.symm
          simp [hnum, hmn, hnm, List.mem_append]

theorem pd_dups_mem (bs : List Block) (p d : List Nat) (n : Nat) :
    n ∈ (bs.foldl pdStep (p, d)).2 ↔
      n ∈ d ∨ (n ∈ p ∧ 1 ≤ countNum n bs) ∨ 2 ≤ countNum n bs := by
  induction bs generalizing p d with
  | nil => simp [countNum]
  | cons b bs ih =>
    simp only [List.foldl_cons]
    cases hnum : b.num with
    | none =>
      rw [pdStep_skip hnum, ih p d, countNum_cons]
      simp [hnum]
    | some m =>
      by_cases hmp : m ∈ p
      · rw [pdStep_old hnum hmp, ih p _]
        by_cases hmn : m = n
        · subst hmn
          have hcnt : countNum m (b :: bs) = countNum m bs + 1 := by
            rw [countNum_cons, hnum]
            simp
          rw [hcnt]
          by_cases hmd : m ∈ d
          · rw [if_pos hmd]
            constructor
            · rintro (h1 | h2 | h3)
              · exact Or.inl h1
              · exact Or.inr (Or.inl ⟨h2.1, by omega⟩)
              · exact Or.inr (Or.inr (by omega))
            · intro _
              exact Or.inl hmd
          · rw [if_neg hmd]
            constructor
            · intro _
              exact Or.inr (Or.inl ⟨hmp, by omega⟩)
            · intro _
              exact Or.inl (List.mem_append.mpr (Or.inr (List.mem_singleton.mpr rfl)))
        · have hnm : ¬ (n = m) := fun hx => hmn hx.symm
          have hcnt : countNum n (b :: bs) = countNum n bs := by
            rw [countNum_cons, hnum]
            simp [hmn]
          rw [hcnt]
          by_cases hmd : m ∈ d
          · rw [if_pos hmd]
          · rw [if_neg hmd]
            constructor
            · rintro (h1 | h2)
              · rcases List.mem_append.mp h1 with hy | hy
                · exact Or.inl hy
                · exact absurd (List.mem_singleton.mp hy) hnm
              · exact Or.inr h2
            · rintro (h1 | h2)
              · exact Or.inl (List.mem_append.mpr (Or.inl h1))
              · exact Or.inr h2
      · rw [pdStep_new hnum hmp, ih _ d]
        by_cases hmn : m = n
        · subst hmn
          have hcnt : countNum m (b :: bs) = countNum m bs + 1 := by
            rw [countNum_cons, hnum]
            simp
          rw [hcnt]
          constructor
          · rintro (h1 | h2 | h3)
            · exact Or.inl h1
            · rcases List.mem_append.mp h2.1 with hy | hy
              · exact absurd hy hmp
              · exact Or.inr (Or.inr (by omega))
            · exact Or.inr (Or.inr (by omega))
          · rintro (h1 | h2 | h3)
            · exact Or.inl h1
            · exact absurd h2.1 hmp
            · refine Or.inr (Or.inl ⟨?_, by omega⟩)
              exact List.mem_append.mpr (Or.inr (List.mem_singleton.mpr rfl))
        · have hnm : ¬ (n = m) := fun hx => hmn hx.symm
          have hcnt : countNum n (b :: bs) = countNum n bs := by
            rw [countNum_cons, hnum]
            simp [hmn]
          rw [hcnt]
          constructor
          · rintro (h1 | h2 | h3)
            · exact Or.inl h1
            · rcases List.mem_append.mp h2.1 with hy | hy
              · exact Or.inr (Or.inl ⟨hy, h2.2⟩)
              · exact absurd (List.mem_singleton.mp hy) hnm
            · exact Or.inr (Or.inr h3)
          · rintro (h1 | h2 | h3)
            · exact Or.inl h1
            · exact Or.inr (Or.inl ⟨List.mem_append.mpr (Or.inl h2.1), h2.2⟩)
            · exact Or.inr (Or.inr h3)

theorem pd_dups_nodup (bs : List Block) (p d : List Nat) (hd : d.Nodup) :
    (bs.foldl pdStep (p, d)).2.Nodup := by
  induction bs generalizing p d with
  | nil => exact hd
  | cons b bs ih =>
    simp only [List.foldl_cons]
    cases hnum : b.num with
    | none =>
      rw [pdStep_skip hnum]
      exact ih p d hd
    | some m =>
      by_cases hmp : m ∈ p
      · rw [pdStep_old hnum hmp]
        by_cases hmd : m ∈ d
        · rw [if_pos hmd]
          exact ih p d hd
        · rw [if_neg hmd]
          apply ih
          simp [List.nodup_append, hd, hmd]
      · rw [pdStep_new hnum hmp]
        exact ih _ d hd

theorem mem_ite_singleton {u e : Unparsed} {c : Prop} [Decidable c]
    (h : u ∈ (if c then [e] else ([] : List Unparsed))) : u = e ∧ c := by
  split at h
  · exact ⟨List.mem_singleton.mp h, by assumption⟩
  · cases h

theorem blockDiags_reason (b : Block) (i : Nat) (u : Unparsed)
    (h : u ∈ blockDiags b i) :
    u.reason = "no-number" ∨ u.reason = "empty-stem" ∨
    u.reason = "incomplete-choices" ∨ u.reason = "too-many-choices" := by
  simp only [blockDiags] at h
  rcases List.mem_append.mp h with h3 | h4
  · rcases List.mem_append.mp h3 with h2 | hc
    · rcases List.mem_append.mp h2 with ha | hb
      · left
        rw [(mem_ite_singleton ha).1]
      · right
        left
        rw [(mem_ite_singleton hb).1]
    · right
      right
      left
      rw [(mem_ite_singleton hc).1]
  · right
    right
    right
    rw [(mem_ite_singleton h4).1]

theorem countP_nodup_mem_one {l : List Nat} {n : Nat} (hnd : l.Nodup)
    (hm : n ∈ l) : l.countP (fun m => m = n) = 1 := by
  induction l with
  | nil => cases hm
  | cons a l ih =>
    rw [List.countP_cons]
    rcases List.mem_cons.mp hm with heq | hm2
    · subst heq
      have ha : n ∉ l := (List.nodup_cons.mp hnd).1
      have hz : l.countP (fun m => m = n) = 0 := by
        rw [List.countP_eq_zero]
        intro x hx hdx
        rw [decide_eq_true_eq] at hdx
        exact ha (hdx ▸ hx)
      simp [hz]
    · have hrec := ih (List.nodup_cons.mp hnd).2 hm2
      have ha : ¬ (a = n) := fun hx => (List.nodup_cons.mp hnd).1 (hx ▸ hm2)
      simp [hrec, ha]

theorem join_blockDiags_countP_zero (lines : List Line) (pred : Unparsed → Bool)
    (hpred : ∀ u, (u.reason = "no-number" ∨ u.reason = "empty-stem" ∨
      u.reason = "incomplete-choices" ∨ u.reason = "too-many-choices") →
      pred u = false) :
    (((finalBlocks lines).enum.map (fun p => blockDiags p.2 p.1)).join).countP pred
      = 0 := by
  rw [List.countP_eq_zero]
  intro u hu
  rw [List.mem_join] at hu
  obtain ⟨l, hl, hul⟩ := hu
  obtain ⟨pr, hpr, rfl⟩ := List.mem_map.mp hl
  have hr := blockDiags_reason pr.2 pr.1 u hul
  simp [hpred u hr]

theorem countQ_ge (bs : List Block) (n : Nat) : ∀ (k : Nat),
    countNum n bs ≤
      ((List.enumFrom k bs).map (fun p => buildQuestion p.2 p.1)).countP
        (fun q => q.index = n) := by
  induction bs with
  | nil => intro k; simp [countNum]
  | cons b bs ih =>
    intro k
    rw [List.enumFrom_cons, List.map_cons, List.countP_cons, countNum_cons]
    have hk := ih (k + 1)
    by_cases hn : b.num = some n
    · have hidx : (buildQuestion b k).index = n := by
        simp [buildQuestion_index, qIndex, hn]
      rw [if_pos hn]
      have h2 : (decide ((buildQuestion b k).index = n)) = true := by
        simp [hidx]
      rw [h2, if_pos rfl]
      omega
    · rw [if_neg hn]
      rcases Decidable.em ((decide ((buildQuestion b k).index = n)) = true) with hy | hy
      · rw [if_pos hy]
        omega
      · rw [if_neg hy]
        omega

/-! Claim C6: duplicate declared numbers are not deduplicated; one
`duplicate-number` diagnostic is emitted. -/

/-- C6: when exactly two final blocks declare the number `n`, at least
two questions carry index `n` (no deduplication), and exactly one
`duplicate-number` diagnostic with index `n` is emitted. -/
theorem C6_duplicate_numbers (lines : List Line) (n : Nat)
    (h : countNum n (finalBlocks lines) = 2) :
    2 ≤ (convert lines).questions.countP (fun q => q.index = n) ∧
    (convert lines).unparsed.countP
      (fun u => u.reason = "duplicate-number" ∧ u.index = some n) = 1 := by
  constructor
  · have h1 : (convert lines).questions
        = (List.enumFrom 0 (finalBlocks lines)).map (fun p => buildQuestion p.2 p.1) :=
      convert_questions_eq [] lines
    rw [h1]
    have := countQ_ge (finalBlocks lines) n 0
    omega
  · show ((convertFrom [] lines).unparsed).countP
        (fun u => u.reason = "duplicate-number" ∧ u.index = some n) = 1
    rw [convert_unparsed_eq]
    have hfb : withFallback lines (segBlocks lines) = finalBlocks lines := by
      unfold finalBlocks
      rw [withFallback_idem]
    rw [hfb]
    rw [List.countP_append, List.countP_append]
    have hjoin : (((finalBlocks lines).enum.map (fun p => blockDiags p.2 p.1)).join).countP
        (fun u => u.reason = "duplicate-number" ∧ u.index = some n) = 0 := by
      apply join_blockDiags_countP_zero
      intro u hr
      rcases hr with hr | hr | hr | hr <;>
        · rw [decide_eq_false_iff_not]
          rintro ⟨h1, _⟩
          rw [hr] at h1
          exact absurd h1 (by decide)
    have haudit : (auditEntries (finalBlocks lines)).countP
        (fun u => u.reason = "duplicate-number" ∧ u.index = some n) = 1 := by
      unfold auditEntries
      rw [List.countP_append, List.countP_map]
      have hmiss : (missingEntries (presentDups (finalBlocks lines)).1).countP
          (fun u => u.reason = "duplicate-number" ∧ u.index = some n) = 0 := by
        unfold missingEntries
        split
        · rfl
        · rw [List.countP_map, List.countP_eq_zero]
          intro x hx
          simp
      rw [hmiss, Nat.add_zero]
      have hone : List.countP (fun m => m = n)
          (presentDups (finalBlocks lines)).2 = 1 := by
        apply countP_nodup_mem_one
        · exact pd_dups_nodup (finalBlocks lines) [] [] (by simp)
        · rw [show presentDups (finalBlocks lines)
              = (finalBlocks lines).foldl pdStep ([], []) from rfl, pd_dups_mem]
          simp
          omega
      rw [← hone]
      apply List.countP_congr
      intro x hx
      simp
    rw [haudit, hjoin]
    simp

/-- C6 witness at the two-block document both declaring number 5. -/
theorem C6_witness :
    countNum 5 (finalBlocks
      [{ html := "5. one?", text := "5. one?" },
       { html := "x", text := "x" },
       { html := "5. two?", text := "5. two?" }]) = 2 ∧
    2 ≤ (convert [{ html := "5. one?", text := "5. one?" },
                  { html := "x", text := "x" },
                  { html := "5. two?", text := "5. two?" }]).questions.countP
          (fun q => q.index = 5) ∧
    (convert [{ html := "5. one?", text := "5. one?" },
              { html := "x", text := "x" },
              { html := "5. two?", text := "5. two?" }]).unparsed.countP
        (fun u => u.reason = "duplicate-number" ∧ u.index = some 5) = 1 := by
  have h := C6_duplicate_numbers
    [{ html := "5. one?", text := "5. one?" },
     { html := "x", text := "x" },
     { html := "5. two?", text := "5. two?" }] 5 (by decide)
  exact ⟨by decide, h.1, h.2⟩

/-! Claim C7: the missing-number audit. -/

theorem countP_not_mem_zero {l : List Nat} {n : Nat} (hm : n ∉ l) :
    l.countP (fun m => m = n) = 0 := by
  rw [List.countP_eq_zero]
  intro x hx hdx
  rw [decide_eq_true_eq] at hdx
  exact hm (hdx ▸ hx)

theorem insertionSort_ne_nil (xs : List Nat) (hne : xs ≠ []) :
    xs.insertionSort (· ≤ ·) ≠ [] := by
  intro h
  have hp := List.perm_insertionSort (· ≤ ·) xs
  rw [h] at hp
  have hlen := hp.length_eq
  simp at hlen
  exact hne (List.length_eq_zero.mp hlen.symm)

theorem sorted_le_getLastD (a : Nat) (t : List Nat)
    (hs : List.Sorted (· ≤ ·) (a :: t)) :
    ∀ m ∈ (a :: t), m ≤ (a :: t).getLastD 0 := by
  induction t generalizing a with
  | nil =>
    intro m hm
    have hma : m = a := by simpa using hm
    subst hma
    simp [List.getLastD_cons]
  | cons b t ih =>
    intro m hm
    have hcons := List.sorted_cons.mp hs
    have hlast : (a :: b :: t).getLastD 0 = (b :: t).getLastD 0 := by
      rw [List.getLastD_cons, List.getLastD_cons, List.getLastD_cons]
    rw [hlast]
    rcases List.mem_cons.mp hm with heq | hm2
    · subst heq
      exact le_trans (hcons.1 b (by simp)) (ih b hcons.2 b (by simp))
    · exact ih b hcons.2 m hm2

theorem getLastD_mem_cons (a : Nat) (t : List Nat) :
    (a :: t).getLastD 0 ∈ (a :: t) := by
  induction t generalizing a with
  | nil => simp [List.getLastD_cons]
  | cons b t ih =>
    have h1 := ih b
    rw [List.getLastD_cons] at h1
    rw [List.getLastD_cons, List.getLastD_cons]
    exact List.mem_cons_of_mem a h1

theorem sortedHead_min (xs : List Nat) (hne : xs ≠ []) :
    (xs.insertionSort (· ≤ ·)).headD 0 ∈ xs ∧
    ∀ m ∈ xs, (xs.insertionSort (· ≤ ·)).headD 0 ≤ m := by
  have hp := List.perm_insertionSort (· ≤ ·) xs
  have hs := List.sorted_insertionSort (· ≤ ·) xs
  cases hsort : xs.insertionSort (· ≤ ·) with
  | nil => exact absurd hsort (insertionSort_ne_nil xs hne)
  | cons x s =>
    rw [hsort] at hp hs
    constructor
    · exact hp.mem_iff.mp (by simp)
    · intro m hm
      have hms : m ∈ x :: s := hp.mem_iff.mpr hm
      simp only [List.headD_cons]
      rcases List.mem_cons.mp hms with heq | hm2
      · exact heq ▸ le_refl m
      · exact (List.sorted_cons.mp hs).1 m hm2

theorem sortedLast_max (xs : List Nat) (hne : xs ≠ []) :
    (xs.insertionSort (· ≤ ·)).getLastD 0 ∈ xs ∧
    ∀ m ∈ xs, m ≤ (xs.insertionSort (· ≤ ·)).getLastD 0 := by
  have hp := List.perm_insertionSort (· ≤ ·) xs
  have hs := List.sorted_insertionSort (· ≤ ·) xs
  cases hsort : xs.insertionSort (· ≤ ·) with
  | nil => exact absurd hsort (insertionSort_ne_nil xs hne)
  | cons x s =>
    rw [hsort] at hp hs
    constructor
    · exact hp.mem_iff.mp (getLastD_mem_cons x s)
    · intro m hm
      exact sorted_le_getLastD x s hs m (hp.mem_iff.mpr hm)

theorem missingEntries_countP (p : List Nat) (hne : p ≠ []) (k : Nat) :
    (missingEntries p).countP
        (fun u => u.reason = "missing-number" ∧ u.index = some k)
      = if (∃ a ∈ p, a ≤ k) ∧ (∃ b ∈ p, k ≤ b) ∧ k ∉ p then 1 else 0 := by
  have hlo := sortedHead_min p hne
  have hhi := sortedLast_max p hne
  have hlohi : (p.insertionSort (· ≤ ·)).headD 0
      ≤ (p.insertionSort (· ≤ ·)).getLastD 0 := hlo.2 _ hhi.1
  unfold missingEntries
  rw [if_neg (by simpa [List.isEmpty_iff] using hne)]
  rw [List.countP_map]
  have hcongr : List.countP
      ((fun u => decide (u.reason = "missing-number" ∧ u.index = some k)) ∘
        fun i => ({ index := some i, reason := "missing-number" } : Unparsed))
      ((List.range' ((p.insertionSort (· ≤ ·)).headD 0)
          ((p.insertionSort (· ≤ ·)).getLastD 0 + 1
            - (p.insertionSort (· ≤ ·)).headD 0)).filter
        (fun i => ! p.contains i))
      = List.countP (fun i => i = k)
        ((List.range' ((p.insertionSort (· ≤ ·)).headD 0)
            ((p.insertionSort (· ≤ ·)).getLastD 0 + 1
              - (p.insertionSort (· ≤ ·)).headD 0)).filter
          (fun i => ! p.contains i)) := by
    apply List.countP_congr
    intro x hx
    simp
  rw [hcongr]
  by_cases hcond : (∃ a ∈ p, a ≤ k) ∧ (∃ b ∈ p, k ≤ b) ∧ k ∉ p
  · rw [if_pos hcond]
    apply countP_nodup_mem_one
    · exact (List.nodup_range' _ _).filter _
    · rw [List.mem_filter, List.mem_range'_1]
      obtain ⟨⟨a, ha, hak⟩, ⟨b, hb, hkb⟩, hknp⟩ := hcond
      have h1 : k ≤ (p.insertionSort (· ≤ ·)).getLastD 0 :=
        le_trans hkb (hhi.2 b hb)
      have h2 : (p.insertionSort (· ≤ ·)).headD 0 ≤ k :=
        le_trans (hlo.2 a ha) hak
      refine ⟨⟨h2, by omega⟩, by simp [hknp]⟩
  · rw [if_neg hcond]
    apply countP_not_mem_zero
    intro hk
    rw [List.mem_filter, List.mem_range'_1] at hk
    obtain ⟨⟨h1, h2⟩, h3⟩ := hk
    have hknp : k ∉ p := by simpa using h3
    refine hcond ⟨⟨(p.insertionSort (· ≤ ·)).headD 0, hlo.1, h1⟩,
      ⟨(p.insertionSort (· ≤ ·)).getLastD 0, hhi.1, by omega⟩, hknp⟩

/-- C7: when the present-number set is non-empty, for every integer `k`
exactly one `missing-number` entry with index `k` is emitted when `k`
lies within the interval spanned by the present numbers and is absent
from them, and none otherwise; and when the present set is empty, no
`missing-number` entry is emitted at all. The interval membership
`min ≤ k ≤ max` is phrased as the existence of present numbers on each
side of `k`. -/
theorem C7_missing_numbers (lines : List Line) (k : Nat) :
    ((presentDups (finalBlocks lines)).1 ≠ [] →
      (convert lines).unparsed.countP
          (fun u => u.reason = "missing-number" ∧ u.index = some k)
        = if (∃ a ∈ (presentDups (finalBlocks lines)).1, a ≤ k)
              ∧ (∃ b ∈ (presentDups (finalBlocks lines)).1, k ≤ b)
              ∧ k ∉ (presentDups (finalBlocks lines)).1
          then 1 else 0) ∧
    ((presentDups (finalBlocks lines)).1 = [] →
      (convert lines).unparsed.countP (fun u => u.reason = "missing-number")
        = 0) := by
  have hfb : withFallback lines (segBlocks lines) = finalBlocks lines := by
    unfold finalBlocks
    rw [withFallback_idem]
  constructor
  · intro hne
    show ((convertFrom [] lines).unparsed).countP
        (fun u => u.reason = "missing-number" ∧ u.index = some k) = _
    rw [convert_unparsed_eq, hfb, List.countP_append, List.countP_append]
    have hjoin : (((finalBlocks lines).enum.map
        (fun p => blockDiags p.2 p.1)).join).countP
        (fun u => u.reason = "missing-number" ∧ u.index = some k) = 0 := by
      apply join_blockDiags_countP_zero
      intro u hr
      rcases hr with hr | hr | hr | hr <;>
        · rw [decide_eq_false_iff_not]
          rintro ⟨h1, _⟩
          rw [hr] at h1
          exact absurd h1 (by decide)
    have haudit : (auditEntries (finalBlocks lines)).countP
        (fun u => u.reason = "missing-number" ∧ u.index = some k)
        = if (∃ a ∈ (presentDups (finalBlocks lines)).1, a ≤ k)
              ∧ (∃ b ∈ (presentDups (finalBlocks lines)).1, k ≤ b)
              ∧ k ∉ (presentDups (finalBlocks lines)).1
          then 1 else 0 := by
      unfold auditEntries
      rw [List.countP_append, List.countP_map]
      have hdups : List.countP
          ((fun u => decide (u.reason = "missing-number" ∧ u.index = some k)) ∘
            fun n => ({ index := some n, reason := "duplicate-number" } : Unparsed))
          (presentDups (finalBlocks lines)).2 = 0 := by
        rw [List.countP_eq_zero]
        intro x hx
        simp
      rw [hdups, missingEntries_countP _ hne k, Nat.zero_add]
    rw [haudit, hjoin]
    simp
  · intro hemp
    show ((convertFrom [] lines).unparsed).countP
        (fun u => u.reason = "missing-number") = 0
    rw [convert_unparsed_eq, hfb, List.countP_append, List.countP_append]
    have hjoin : (((finalBlocks lines).enum.map
        (fun p => blockDiags p.2 p.1)).join).countP
        (fun u => u.reason = "missing-number") = 0 := by
      apply join_blockDiags_countP_zero
      intro u hr
      rcases hr with hr | hr | hr | hr <;>
        · rw [decide_eq_false_iff_not]
          intro h1
          rw [hr] at h1
          exact absurd h1 (by decide)
    have haudit : (auditEntries (finalBlocks lines)).countP
        (fun u => u.reason = "missing-number") = 0 := by
      unfold auditEntries
      rw [List.countP_append, List.countP_map]
      have hdups : List.countP
          ((fun u => decide (u.reason = "missing-number")) ∘
            fun n => ({ index := some n, reason := "duplicate-number" } : Unparsed))
          (presentDups (finalBlocks lines)).2 = 0 := by
        rw [List.countP_eq_zero]
        intro x hx
        simp
      have hmiss : (missingEntries (presentDups (finalBlocks lines)).1).countP
          (fun u => u.reason = "missing-number") = 0 := by
        unfold missingEntries
        rw [if_pos (by simp [hemp])]
        rfl
      rw [hdups, hmiss]
    rw [haudit, hjoin]
    simp

/-- C7 witness: declared numbers `{1, 3}` yield exactly one
`missing-number` entry, with index 2, and none with index 5. -/
theorem C7_witness :
    (convert [{ html := "1. aaa", text := "1. aaa" },
              { html := "3. bbb", text := "3. bbb" }]).unparsed.countP
        (fun u => u.reason = "missing-number" ∧ u.index = some 2) = 1 ∧
    (convert [{ html := "1. aaa", text := "1. aaa" },
              { html := "3. bbb", text := "3. bbb" }]).unparsed.countP
        (fun u => u.reason = "missing-number" ∧ u.index = some 5) = 0 := by
  have h2 := (C7_missing_numbers
    [{ html := "1. aaa", text := "1. aaa" },
     { html := "3. bbb", text := "3. bbb" }] 2).1 (by decide)
  have h5 := (C7_missing_numbers
    [{ html := "1. aaa", text := "1. aaa" },
     { html := "3. bbb", text := "3. bbb" }] 5).1 (by decide)
  rw [if_pos (by decide)] at h2
  rw [if_neg (by decide)] at h5
  exact ⟨h2, h5⟩

/-! Claim C9: character-level facts about the matchers, needed to show
that the text after an answer marker never reaches the question list. -/

theorem char_eq_of_toNat {c x : Char} (h : c.toNat = x.toNat) : c = x :=
  Char.ext (UInt32.ext h)

theorem toNat_ofNat_valid {n : Nat} (h : n < 55296) : (Char.ofNat n).toNat = n := by
  unfold Char.ofNat
  rw [dif_pos (Or.inl h)]
  rfl

theorem char_toLower_cases {c x : Char} (h : c.toLower = x) :
    c = x ∨ (65 ≤ c.toNat ∧ c.toNat ≤ 90 ∧ x.toNat = c.toNat + 32) := by
  simp only [Char.toLower] at h
  split at h
  · rename_i hr
    right
    refine ⟨hr.1, hr.2, ?_⟩
    rw [← h, toNat_ofNat_valid (by omega)]
  · left
    exact h

theorem isDigit_toNat {c : Char} (h : c.isDigit = true) :
    48 ≤ c.toNat ∧ c.toNat ≤ 57 := by
  simp only [Char.isDigit, Bool.and_eq_true, decide_eq_true_eq] at h
  obtain ⟨h1, h2⟩ := h
  have g1 : (48 : UInt32).toNat ≤ c.val.toNat := h1
  have g2 : c.val.toNat ≤ (57 : UInt32).toNat := h2
  have e1 : (48 : UInt32).toNat = 48 := by decide
  have e2 : (57 : UInt32).toNat = 57 := by decide
  constructor
  · rw [← e1]
    exact g1
  · rw [← e2]
    exact g2

theorem not_digit_of_toLower_ac {c : Char}
    (h : c.toLower = 'a' ∨ c.toLower = 'c') : c.isDigit = false := by
  rcases h with h | h <;> rcases char_toLower_cases h with rfl | ⟨h1, h2, h3⟩
  · decide
  · by_contra hcon
    rw [Bool.not_eq_false] at hcon
    have := isDigit_toNat hcon
    omega
  · decide
  · by_contra hcon
    rw [Bool.not_eq_false] at hcon
    have := isDigit_toNat hcon
    omega

theorem not_ws_of_toLower_no {d : Char}
    (h : d.toLower = 'n' ∨ d.toLower = 'o') : isWs d = false := by
  have hn : ('n' : Char).toNat = 110 := by decide
  have ho : ('o' : Char).toNat = 111 := by decide
  rcases h with h | h <;> rcases char_toLower_cases h with rfl | ⟨h1, h2, h3⟩
  · decide
  · have hd : d = 'N' := char_eq_of_toNat
      (by
        have h78 : ('N' : Char).toNat = 78 := by decide
        omega)
    subst hd
    decide
  · decide
  · have hd : d = 'O' := char_eq_of_toNat
      (by
        have h79 : ('O' : Char).toNat = 79 := by decide
        omega)
    subst hd
    decide

theorem ne_sep_of_toLower_no {d : Char}
    (h : d.toLower = 'n' ∨ d.toLower = 'o') : d ≠ '.' ∧ d ≠ ')' := by
  constructor <;> rintro rfl <;> rcases h with h | h <;>
    exact absurd h (by decide)

theorem ciStrip_cons_inv {p : Char} {ps cs r : List Char}
    (h : ciStrip (p :: ps) cs = some r) :
    ∃ c cs2, cs = c :: cs2 ∧ c.toLower = p.toLower ∧ ciStrip ps cs2 = some r := by
  cases cs with
  | nil => simp [ciStrip] at h
  | cons c cs2 =>
    simp only [ciStrip] at h
    split at h
    · rename_i hc
      exact ⟨c, cs2, rfl, hc.symm, h⟩
    · cases h

theorem answerMatch_marker {cs : List Char} (h : (answerMatch cs).isSome) :
    (∃ r, ciStrip "Answer".data (cs.dropWhile isWs) = some r) ∨
    (∃ r, ciStrip "Ans".data (cs.dropWhile isWs) = some r) ∨
    (∃ r, ciStrip "Correct Answer".data (cs.dropWhile isWs) = some r) := by
  simp only [answerMatch] at h
  cases h1 : ciStrip "Answer".data (cs.dropWhile isWs) with
  | some r2 => exact Or.inl ⟨r2, rfl⟩
  | none =>
    cases h2 : ciStrip "Ans".data (cs.dropWhile isWs) with
    | some r3 => exact Or.inr (Or.inl ⟨r3, rfl⟩)
    | none =>
      cases h3 : ciStrip "Correct Answer".data (cs.dropWhile isWs) with
      | some r4 => exact Or.inr (Or.inr ⟨r4, rfl⟩)
      | none =>
        rw [h1, h2, h3] at h
        simp at h

theorem answerMatch_two_chars {cs : List Char} (h : (answerMatch cs).isSome) :
    ∃ c d r, cs.dropWhile isWs = c :: d :: r ∧
      (c.toLower = 'a' ∨ c.toLower = 'c') ∧
      (d.toLower = 'n' ∨ d.toLower = 'o') := by
  rcases answerMatch_marker h with ⟨r, hr⟩ | ⟨r, hr⟩ | ⟨r, hr⟩
  · obtain ⟨c, cs2, hcs, hc, hrest⟩ := ciStrip_cons_inv hr
    obtain ⟨d, cs3, hcs2, hd, _⟩ := ciStrip_cons_inv hrest
    refine ⟨c, d, cs3, by rw [hcs, hcs2], Or.inl ?_, Or.inl ?_⟩
    · rw [hc]
      decide
    · rw [hd]
      decide
  · obtain ⟨c, cs2, hcs, hc, hrest⟩ := ciStrip_cons_inv hr
    obtain ⟨d, cs3, hcs2, hd, _⟩ := ciStrip_cons_inv hrest
    refine ⟨c, d, cs3, by rw [hcs, hcs2], Or.inl ?_, Or.inl ?_⟩
    · rw [hc]
      decide
    · rw [hd]
      decide
  · obtain ⟨c, cs2, hcs, hc, hrest⟩ := ciStrip_cons_inv hr
    obtain ⟨d, cs3, hcs2, hd, _⟩ := ciStrip_cons_inv hrest
    refine ⟨c, d, cs3, by rw [hcs, hcs2], Or.inr ?_, Or.inr ?_⟩
    · rw [hc]
      decide
    · rw [hd]
      decide

theorem markLen_letter_none {cs : List Char} {c d : Char} {r : List Char}
    (hdrop : cs.dropWhile isWs = c :: d :: r)
    (hdws : isWs d = false) (hd1 : d ≠ '.') (hd2 : d ≠ ')') :
    markLen letterHead cs = none := by
  simp only [markLen]
  rw [hdrop]
  cases hlh : letterHead (c :: d :: r) with
  | none => rfl
  | some h1 =>
    have h1eq : h1 = 1 := by
      simp only [letterHead] at hlh
      split at hlh
      · injection hlh with hx
        exact hx.symm
      · cases hlh
    subst h1eq
    simp [List.takeWhile_cons, List.dropWhile_cons, hdws, hd1, hd2]

theorem answer_not_choice {cs : List Char} (h : (answerMatch cs).isSome) :
    choiceMatch cs = none := by
  obtain ⟨c, d, r, hdrop, hc, hd⟩ := answerMatch_two_chars h
  have hdws := not_ws_of_toLower_no hd
  have hsep := ne_sep_of_toLower_no hd
  unfold choiceMatch
  rw [markLen_letter_none hdrop hdws hsep.1 hsep.2]

theorem markLen_digits_none {cs : List Char} {c : Char} {rest : List Char}
    (hdrop : cs.dropWhile isWs = c :: rest) (hc : c.isDigit = false) :
    markLen digitsHead cs = none := by
  simp only [markLen]
  rw [hdrop]
  have hdh : digitsHead (c :: rest) = none := by
    simp [digitsHead, List.takeWhile_cons, hc]
  rw [hdh]

theorem jsTrim_decomp (s : String) :
    s.data.dropWhile isWs
      = (jsTrim s).data
        ++ ((s.data.dropWhile isWs).reverse.takeWhile isWs).reverse := by
  have h1 : (s.data.dropWhile isWs).reverse
      = (s.data.dropWhile isWs).reverse.takeWhile isWs
        ++ (s.data.dropWhile isWs).reverse.dropWhile isWs :=
    (List.takeWhile_append_dropWhile isWs _).symm
  calc s.data.dropWhile isWs
      = (s.data.dropWhile isWs).reverse.reverse := (List.reverse_reverse _).symm
    _ = ((s.data.dropWhile isWs).reverse.takeWhile isWs
          ++ (s.data.dropWhile isWs).reverse.dropWhile isWs).reverse := by
        rw [← h1]
    _ = ((s.data.dropWhile isWs).reverse.dropWhile isWs).reverse
          ++ ((s.data.dropWhile isWs).reverse.takeWhile isWs).reverse :=
        List.reverse_append _ _
    _ = (jsTrim s).data
          ++ ((s.data.dropWhile isWs).reverse.takeWhile isWs).reverse := rfl

theorem head_dropWhile_false {p : Char → Bool} :
    ∀ {l : List Char} {c : Char} {r : List Char},
      l.dropWhile p = c :: r → p c = false := by
  intro l
  induction l with
  | nil =>
    intro c r h
    simp [List.dropWhile] at h
  | cons a t ih =>
    intro c r h
    rw [List.dropWhile_cons] at h
    split at h
    · exact ih h
    · rename_i hpa
      injection h with h1 _
      subst h1
      simpa using hpa

theorem answer_not_qstart {s : String}
    (h : (answerMatch (jsTrim s).data).isSome) :
    qStartMatch s.data = none := by
  obtain ⟨c, d, r, hdrop, hc, hd⟩ := answerMatch_two_chars h
  have hc' : c.isDigit = false := not_digit_of_toLower_ac hc
  obtain ⟨t, ht⟩ : ∃ t, s.data.dropWhile isWs = (jsTrim s).data ++ t :=
    ⟨_, jsTrim_decomp s⟩
  cases hJ : (jsTrim s).data with
  | nil =>
    rw [hJ] at hdrop
    simp [List.dropWhile] at hdrop
  | cons j0 J =>
    rw [hJ] at ht hdrop
    have hX : s.data.dropWhile isWs = j0 :: (J ++ t) := by
      rw [ht]
      rfl
    have hj0 : isWs j0 = false := head_dropWhile_false hX
    rw [List.dropWhile_cons, if_neg (by simp [hj0])] at hdrop
    injection hdrop with h1 _
    subst h1
    unfold qStartMatch
    rw [markLen_digits_none hX hc']

theorem answer_trim_ne {s : String}
    (h : (answerMatch (jsTrim s).data).isSome) :
    (jsTrim s == "") = false := by
  obtain ⟨c, d, r, hdrop, _, _⟩ := answerMatch_two_chars h
  rw [beq_eq_false_iff_ne]
  intro hEq
  rw [hEq] at hdrop
  simp [List.dropWhile] at hdrop

/-- Two lines that are either equal or both answer lines (their trimmed
texts both match the answer pattern): the relation under which the text
after the answer marker may vary freely. -/
def ansLineRel (l1 l2 : Line) : Prop :=
  l1 = l2 ∨ ((answerMatch (jsTrim l1.text).data).isSome
    ∧ (answerMatch (jsTrim l2.text).data).isSome)

/-- The classifier-state components that feed the question record. The
extracted answer is deliberately not related: it is never read. -/
def stateRel (s1 s2 : ClassState) : Prop :=
  s1.stemParts = s2.stemParts ∧ s1.choices = s2.choices ∧ s1.active = s2.active

/-- Blocks with equal declared numbers and pointwise-related lines. -/
def blockRel (b1 b2 : Block) : Prop :=
  b1.num = b2.num ∧ List.Forall₂ ansLineRel b1.lines b2.lines

/-- Relatedness of the open-block state of the segmenter. -/
def curRel : Option Block → Option Block → Prop
  | none, none => True
  | some b1, some b2 => blockRel b1 b2
  | _, _ => False

theorem curRel_none : curRel none none := trivial

theorem ansLineRel_qstart {l1 l2 : Line} (h : ansLineRel l1 l2) :
    qStartMatch l1.text.data = qStartMatch l2.text.data := by
  rcases h with rfl | ⟨h1, h2⟩
  · rfl
  · rw [answer_not_qstart h1, answer_not_qstart h2]

theorem ansLineRel_trim_empty {l1 l2 : Line} (h : ansLineRel l1 l2) :
    (jsTrim l1.text == "") = (jsTrim l2.text == "") := by
  rcases h with rfl | ⟨h1, h2⟩
  · rfl
  · rw [answer_trim_ne h1, answer_trim_ne h2]

theorem classifyLine_congr (j : Nat) (ln : Line) {s1 s2 : ClassState}
    (h : stateRel s1 s2) :
    stateRel (classifyLine j ln s1) (classifyLine j ln s2) := by
  obtain ⟨h1, h2, h3⟩ := h
  unfold classifyLine stateRel
  cases hc : choiceMatch (jsTrim ln.text).data with
  | some kb => exact ⟨by simp [hc, h1], by simp [hc, h2], by simp [hc]⟩
  | none =>
    cases ha : answerMatch (jsTrim ln.text).data with
    | some raw => exact ⟨by simp [hc, ha, h1], by simp [hc, ha, h2], by simp [hc, ha]⟩
    | none =>
      by_cases hj : j = 0
      · exact ⟨by simp [hc, ha, hj, h1], by simp [hc, ha, hj, h2],
               by simp [hc, ha, hj]⟩
      · by_cases hact : s1.active = true
        · have hact2 : s2.active = true := h3 ▸ hact
          exact ⟨by simp [hc, ha, hj, hact, hact2, h1],
                 by simp [hc, ha, hj, hact, hact2, h2],
                 by simp [hc, ha, hj, hact, hact2, h3]⟩
        · have hact2 : ¬ s2.active = true := h3 ▸ hact
          exact ⟨by simp [hc, ha, hj, hact, hact2, h1],
                 by simp [hc, ha, hj, hact, hact2, h2],
                 by simp [hc, ha, hj, hact, hact2, h3]⟩

theorem classifyLine_ansrel (j : Nat) {l1 l2 : Line}
    (ha1 : (answerMatch (jsTrim l1.text).data).isSome)
    (ha2 : (answerMatch (jsTrim l2.text).data).isSome)
    {s1 s2 : ClassState} (h : stateRel s1 s2) :
    stateRel (classifyLine j l1 s1) (classifyLine j l2 s2) := by
  obtain ⟨h1, h2, h3⟩ := h
  have hc1 : choiceMatch (jsTrim l1.text).data = none := answer_not_choice ha1
  have hc2 : choiceMatch (jsTrim l2.text).data = none := answer_not_choice ha2
  obtain ⟨r1, hr1⟩ := Option.isSome_iff_exists.mp ha1
  obtain ⟨r2, hr2⟩ := Option.isSome_iff_exists.mp ha2
  unfold classifyLine stateRel
  exact ⟨by simp [hc1, hc2, hr1, hr2, h1],
         by simp [hc1, hc2, hr1, hr2, h2],
         by simp [hc1, hc2, hr1, hr2]⟩

theorem classifyLine_rel (j : Nat) {l1 l2 : Line} (hrel : ansLineRel l1 l2)
    {s1 s2 : ClassState} (h : stateRel s1 s2) :
    stateRel (classifyLine j l1 s1) (classifyLine j l2 s2) := by
  rcases hrel with rfl | ⟨ha1, ha2⟩
  · exact classifyLine_congr j l1 h
  · exact classifyLine_ansrel j ha1 ha2 h

theorem classifyFold_rel {ls1 ls2 : List Line}
    (hf : List.Forall₂ ansLineRel ls1 ls2) :
    ∀ (k : Nat) {s1 s2 : ClassState}, stateRel s1 s2 →
    stateRel ((List.enumFrom k ls1).foldl (fun st p => classifyLine p.1 p.2 st) s1)
             ((List.enumFrom k ls2).foldl (fun st p => classifyLine p.1 p.2 st) s2) := by
  induction hf with
  | nil =>
    intro k s1 s2 h
    exact h
  | cons hrel hrest ih =>
    intro k s1 s2 h
    rw [List.enumFrom_cons, List.enumFrom_cons, List.foldl_cons, List.foldl_cons]
    exact ih (k + 1) (classifyLine_rel k hrel h)

theorem classifyBlock_rel {b1 b2 : Block}
    (hlines : List.Forall₂ ansLineRel b1.lines b2.lines) :
    stateRel (classifyBlock b1) (classifyBlock b2) :=
  classifyFold_rel hlines 0 ⟨rfl, rfl, rfl⟩

theorem buildQuestion_rel {b1 b2 : Block} (h : blockRel b1 b2) (i : Nat) :
    buildQuestion b1 i = buildQuestion b2 i := by
  obtain ⟨hnum, hlines⟩ := h
  obtain ⟨h1, h2, _⟩ := classifyBlock_rel hlines
  simp only [buildQuestion, stemHtmlOf, qIndex, h1, h2, hnum]

theorem length_ite_singleton {c : Prop} [Decidable c] (e : Unparsed) :
    (if c then [e] else ([] : List Unparsed)).length = if c then 1 else 0 := by
  split <;> simp

theorem blockDiags_length_rel {b1 b2 : Block} (h : blockRel b1 b2) (i : Nat) :
    (blockDiags b1 i).length = (blockDiags b2 i).length := by
  obtain ⟨hnum, hlines⟩ := h
  obtain ⟨h1, h2, _⟩ := classifyBlock_rel hlines
  have hstem : toPlainStem (stemHtmlOf (classifyBlock b1))
      = toPlainStem (stemHtmlOf (classifyBlock b2)) := by
    unfold stemHtmlOf
    rw [h1]
  simp only [blockDiags, List.length_append, length_ite_singleton]
  rw [hstem, h2, hnum]

theorem dropWhile_rel {p : Line → Bool}
    (hp : ∀ l1 l2, ansLineRel l1 l2 → p l1 = p l2) :
    ∀ {ls1 ls2 : List Line}, List.Forall₂ ansLineRel ls1 ls2 →
      List.Forall₂ ansLineRel (ls1.dropWhile p) (ls2.dropWhile p) := by
  intro ls1 ls2 h
  induction h with
  | nil => exact List.Forall₂.nil
  | cons hrel hrest ih =>
    rename_i a b t1 t2
    rw [List.dropWhile_cons, List.dropWhile_cons]
    by_cases hpa : p a = true
    · rw [if_pos hpa, if_pos (by rw [← hp a b hrel]; exact hpa)]
      exact ih
    · rw [if_neg hpa, if_neg (by rw [← hp a b hrel]; exact hpa)]
      exact List.Forall₂.cons hrel hrest

theorem stripTrailingEmpty_rel {ls1 ls2 : List Line}
    (h : List.Forall₂ ansLineRel ls1 ls2) :
    List.Forall₂ ansLineRel (stripTrailingEmpty ls1) (stripTrailingEmpty ls2) := by
  unfold stripTrailingEmpty
  rw [List.forall₂_reverse_iff]
  exact dropWhile_rel (fun l1 l2 hrel => ansLineRel_trim_empty hrel)
    (List.forall₂_reverse_iff.mpr h)

theorem pushCur_rel {bs1 bs2 : List Block} (hbs : List.Forall₂ blockRel bs1 bs2)
    {c1 c2 : Option Block} (hc : curRel c1 c2) :
    List.Forall₂ blockRel (pushCur bs1 c1) (pushCur bs2 c2) := by
  cases c1 with
  | none =>
    cases c2 with
    | none => exact hbs
    | some b2 => exact hc.elim
  | some b1 =>
    cases c2 with
    | none => exact hc.elim
    | some b2 =>
      have hb : blockRel b1 b2 := hc
      have hstrip : List.Forall₂ ansLineRel (stripTrailingEmpty b1.lines)
          (stripTrailingEmpty b2.lines) := stripTrailingEmpty_rel hb.2
      have hlen := hstrip.length_eq
      have e1 : pushCur bs1 (some b1)
          = if (stripTrailingEmpty b1.lines).isEmpty = true then bs1
            else bs1 ++ [{ num := b1.num, lines := stripTrailingEmpty b1.lines }] := rfl
      have e2 : pushCur bs2 (some b2)
          = if (stripTrailingEmpty b2.lines).isEmpty = true then bs2
            else bs2 ++ [{ num := b2.num, lines := stripTrailingEmpty b2.lines }] := rfl
      rw [e1, e2]
      by_cases hemp : (stripTrailingEmpty b1.lines).isEmpty = true
      · have hemp2 : (stripTrailingEmpty b2.lines).isEmpty = true := by
          rw [List.isEmpty_iff] at hemp ⊢
          rw [hemp] at hlen
          exact List.length_eq_zero.mp hlen.symm
        rw [if_pos hemp, if_pos hemp2]
        exact hbs
      · have hemp2 : ¬ (stripTrailingEmpty b2.lines).isEmpty = true := by
          intro hx
          apply hemp
          rw [List.isEmpty_iff] at hx ⊢
          rw [hx] at hlen
          exact List.length_eq_zero.mp hlen
        rw [if_neg hemp, if_neg hemp2]
        exact List.rel_append hbs
          (List.Forall₂.cons ⟨hb.1, hstrip⟩ List.Forall₂.nil)

theorem segLoop_rel {ls1 ls2 : List Line}
    (h : List.Forall₂ ansLineRel ls1 ls2) :
    ∀ {bs1 bs2 : List Block}, List.Forall₂ blockRel bs1 bs2 →
    ∀ {c1 c2 : Option Block}, curRel c1 c2 →
    List.Forall₂ blockRel (segLoop ls1 bs1 c1) (segLoop ls2 bs2 c2) := by
  induction h with
  | nil =>
    intro bs1 bs2 hbs c1 c2 hc
    exact pushCur_rel hbs hc
  | cons hrel hrest ih =>
    rename_i a b t1 t2
    intro bs1 bs2 hbs c1 c2 hc
    have hq := ansLineRel_qstart hrel
    cases hqa : qStartMatch a.text.data with
    | some n =>
      have hqb : qStartMatch b.text.data = some n := by
        rw [← hq]
        exact hqa
      have e1 : segLoop (a :: t1) bs1 c1
          = segLoop t1 (pushCur bs1 c1) (some { num := some n, lines := [a] }) := by
        simp only [segLoop, hqa]
      have e2 : segLoop (b :: t2) bs2 c2
          = segLoop t2 (pushCur bs2 c2) (some { num := some n, lines := [b] }) := by
        simp only [segLoop, hqb]
      rw [e1, e2]
      exact ih (pushCur_rel hbs hc)
        (show blockRel _ _ from ⟨rfl, List.Forall₂.cons hrel List.Forall₂.nil⟩)
    | none =>
      have hqb : qStartMatch b.text.data = none := by
        rw [← hq]
        exact hqa
      cases c1 with
      | none =>
        cases c2 with
        | none =>
          have e1 : segLoop (a :: t1) bs1 none = segLoop t1 bs1 none := by
            simp only [segLoop, hqa]
          have e2 : segLoop (b :: t2) bs2 none = segLoop t2 bs2 none := by
            simp only [segLoop, hqb]
          rw [e1, e2]
          exact ih hbs curRel_none
        | some => exact hc.elim
      | some bb1 =>
        cases c2 with
        | none => exact hc.elim
        | some bb2 =>
          have hb : blockRel bb1 bb2 := hc
          have e1 : segLoop (a :: t1) bs1 (some bb1)
              = segLoop t1 bs1 (some { num := bb1.num, lines := bb1.lines ++ [a] }) := by
            simp only [segLoop, hqa]
          have e2 : segLoop (b :: t2) bs2 (some bb2)
              = segLoop t2 bs2 (some { num := bb2.num, lines := bb2.lines ++ [b] }) := by
            simp only [segLoop, hqb]
          rw [e1, e2]
          exact ih hbs
            (show blockRel _ _ from
              ⟨hb.1, List.rel_append hb.2 (List.Forall₂.cons hrel List.Forall₂.nil)⟩)

theorem segBlocks_rel {L1 L2 : List Line} (h : List.Forall₂ ansLineRel L1 L2) :
    List.Forall₂ blockRel (segBlocks L1) (segBlocks L2) :=
  segLoop_rel h List.Forall₂.nil curRel_none

theorem withFallback_rel {L1 L2 : List Line} (hl : List.Forall₂ ansLineRel L1 L2)
    {bs1 bs2 : List Block} (hbs : List.Forall₂ blockRel bs1 bs2) :
    List.Forall₂ blockRel (withFallback L1 bs1) (withFallback L2 bs2) := by
  have hb : bs1.isEmpty = bs2.isEmpty := by
    cases hbs with
    | nil => rfl
    | cons _ _ => rfl
  have hL : L1.isEmpty = L2.isEmpty := by
    cases hl with
    | nil => rfl
    | cons _ _ => rfl
  unfold withFallback
  rw [hb, hL]
  by_cases hcond : (bs2.isEmpty && !L2.isEmpty) = true
  · rw [if_pos hcond, if_pos hcond]
    exact List.Forall₂.cons ⟨rfl, hl⟩ List.Forall₂.nil
  · rw [if_neg hcond, if_neg hcond]
    exact hbs

theorem foldl_pdStep_rel {bs1 bs2 : List Block}
    (hbs : List.Forall₂ blockRel bs1 bs2) :
    ∀ pd, bs1.foldl pdStep pd = bs2.foldl pdStep pd := by
  induction hbs with
  | nil =>
    intro pd
    rfl
  | cons hrel hrest ih =>
    rename_i a b t1 t2
    intro pd
    rw [List.foldl_cons, List.foldl_cons]
    have e : pdStep pd a = pdStep pd b := by
      unfold pdStep
      rw [hrel.1]
    rw [e]
    exact ih _

theorem auditEntries_rel {bs1 bs2 : List Block}
    (hbs : List.Forall₂ blockRel bs1 bs2) :
    auditEntries bs1 = auditEntries bs2 := by
  unfold auditEntries presentDups
  rw [foldl_pdStep_rel hbs]

theorem enumFrom_map_buildQuestion_rel {bs1 bs2 : List Block}
    (hbs : List.Forall₂ blockRel bs1 bs2) :
    ∀ k, (List.enumFrom k bs1).map (fun p => buildQuestion p.2 p.1)
      = (List.enumFrom k bs2).map (fun p => buildQuestion p.2 p.1) := by
  induction hbs with
  | nil =>
    intro k
    rfl
  | cons hrel hrest ih =>
    intro k
    simp only [List.enumFrom_cons, List.map_cons]
    rw [buildQuestion_rel hrel k, ih (k + 1)]

theorem enumFrom_join_blockDiags_length {bs1 bs2 : List Block}
    (hbs : List.Forall₂ blockRel bs1 bs2) :
    ∀ k, ((List.enumFrom k bs1).map (fun p => blockDiags p.2 p.1)).join.length
      = ((List.enumFrom k bs2).map (fun p => blockDiags p.2 p.1)).join.length := by
  induction hbs with
  | nil =>
    intro k
    rfl
  | cons hrel hrest ih =>
    intro k
    simp only [List.enumFrom_cons, List.map_cons, List.join_cons,
      List.length_append]
    rw [blockDiags_length_rel hrel k, ih (k + 1)]

theorem enum_map_buildQuestion_rel {bs1 bs2 : List Block}
    (hbs : List.Forall₂ blockRel bs1 bs2) :
    bs1.enum.map (fun p => buildQuestion p.2 p.1)
      = bs2.enum.map (fun p => buildQuestion p.2 p.1) :=
  enumFrom_map_buildQuestion_rel hbs 0

theorem enum_join_blockDiags_length {bs1 bs2 : List Block}
    (hbs : List.Forall₂ blockRel bs1 bs2) :
    ((bs1.enum.map (fun p => blockDiags p.2 p.1)).join).length
      = ((bs2.enum.map (fun p => blockDiags p.2 p.1)).join).length :=
  enumFrom_join_blockDiags_length hbs 0

/-! Claim C9 verdict. As stated the claim is false: emptying nothing but
the answer remainder can still change the `empty-stem` diagnostic sample,
which embeds the raw text of every line of the block. The amended claim:
the question list and the stats are unchanged, and the diagnostic-entry
count is unchanged; only sample text inside diagnostics can differ. -/

set_option maxRecDepth 4000 in
/-- C9 counterexample: the documents `["1. hi", "Answer: B"]` and
`["1. hi", "Answer: C"]` differ only in the remainder after the answer
marker (both remainders match the answer pattern), yet their diagnostics
differ: the `empty-stem` sample embeds the raw answer line. -/
theorem C9_counterexample :
    (answerMatch (jsTrim "Answer: B").data).isSome = true ∧
    (answerMatch (jsTrim "Answer: C").data).isSome = true ∧
    (convert [{ html := "1. hi", text := "1. hi" },
              { html := "Answer: B", text := "Answer: B" }]).unparsed
      ≠ (convert [{ html := "1. hi", text := "1. hi" },
                  { html := "Answer: C", text := "Answer: C" }]).unparsed :=
  ⟨by decide, by decide, by decide⟩

/-- C9 (amended): for any two line sequences that are pointwise equal
except on answer lines (lines whose trimmed text matches the answer
pattern on both sides), the emitted question list and the aggregated
stats are identical: the extracted answer value never reaches a question
record or a count. Only diagnostic sample strings may differ. -/
theorem C9_answer_value_never_reaches_questions {L1 L2 : List Line}
    (h : List.Forall₂ ansLineRel L1 L2) :
    (convert L1).questions = (convert L2).questions ∧
    (convert L1).stats = (convert L2).stats := by
  have hseg := segBlocks_rel h
  have hb1 := withFallback_rel h hseg
  have hb2 : List.Forall₂ blockRel (finalBlocks L1) (finalBlocks L2) :=
    withFallback_rel h hb1
  have hq : (convertFrom [] L1).questions = (convertFrom [] L2).questions := by
    rw [convert_questions_eq [] L1, convert_questions_eq [] L2]
    exact enum_map_buildQuestion_rel hb2
  refine ⟨hq, ?_⟩
  have hu : (convertFrom [] L1).unparsed.length
      = (convertFrom [] L2).unparsed.length := by
    rw [convert_unparsed_eq, convert_unparsed_eq]
    simp only [List.length_append]
    rw [auditEntries_rel hb1, enum_join_blockDiags_length hb2]
  have ht : (finalBlocks L1).length = (finalBlocks L2).length := hb2.length_eq
  have hp : (convertFrom [] L1).questions.length
      = (convertFrom [] L2).questions.length := congrArg List.length hq
  show (convertFrom [] L1).stats = (convertFrom [] L2).stats
  rw [convert_stats_eq [] L1, convert_stats_eq [] L2, ht, hp, hu]

/-- C9 witness at the counterexample pair: questions and stats agree even
though the answer remainders differ. -/
theorem C9_witness :
    (convert [{ html := "1. hi", text := "1. hi" },
              { html := "Answer: B", text := "Answer: B" }]).questions
      = (convert [{ html := "1. hi", text := "1. hi" },
                  { html := "Answer: C", text := "Answer: C" }]).questions ∧
    (convert [{ html := "1. hi", text := "1. hi" },
              { html := "Answer: B", text := "Answer: B" }]).stats
      = (convert [{ html := "1. hi", text := "1. hi" },
                  { html := "Answer: C", text := "Answer: C" }]).stats := by
  apply C9_answer_value_never_reaches_questions
  exact List.Forall₂.cons (Or.inl rfl)
    (List.Forall₂.cons (Or.inr ⟨by decide, by decide⟩) List.Forall₂.nil)

end DocxQ
